import Mathlib

/-!
Verification of the yap-machine journaling client's two specified components:
the retry-capable HTTP client wrapper (axios response interceptor in
`src/frontend/src/api/client.js`) and the chat transcript store with content
sanitization (`ChatContext.jsx`), together with the chat service fallback
(`chatService.js`) and the `AIChat` submit handler.

The JavaScript source is shallowly embedded: strings are `List Char`, the
axios error object is a structure with optional `config` and `response`
fields, and the single-retry control flow is run against an oracle that
assigns an outcome to each attempt.
-/

/-! ## HTTP client wrapper (src/frontend/src/api/client.js)

The axios response interceptor's error handler:

  const originalRequest = error.config;
  if (originalRequest._retry || !originalRequest ||
      (error.response && error.response.status >= 400 && error.response.status < 500)) {
    return Promise.reject(error);
  }
  originalRequest._retry = true;
  await new Promise(resolve => setTimeout(resolve, 1000));
  return apiClient(originalRequest);
-/

/-- The mutable per-request config object; `retryFlag` models the `_retry`
property the interceptor sets on `originalRequest`. -/
structure RequestConfig where
  retryFlag : Bool
deriving DecidableEq, Repr

/-- The part of an axios HTTP response the interceptor inspects. -/
structure ResponseInfo where
  status : Nat
deriving DecidableEq, Repr

/-- The axios error object passed to the rejection interceptor: `config` is
the originating request's config (absent for errors raised before a request
object existed) and `response` is the server response (absent for
network-level failures). -/
structure AxiosError where
  config : Option RequestConfig
  response : Option ResponseInfo
deriving DecidableEq, Repr

/-- What the JS error handler can do with a rejected response: raise a
`TypeError` itself (property access on `undefined`), reject with an error,
or reissue the request with an updated config after a delay of `delayMs`
milliseconds. -/
inductive HandlerResult where
  | typeError
  | reject (e : AxiosError)
  | retryRequest (delayMs : Nat) (cfg : RequestConfig)
deriving DecidableEq, Repr

/-- JS truthiness of `originalRequest` (an object is truthy, `undefined` is
falsy); used by the interceptor's `!originalRequest` guard. -/
def jsTruthyCfg : Option RequestConfig → Bool
  | none => false
  | some _ => true

/-- The `error.response && status >= 400 && status < 500` test. -/
def is4xx (e : AxiosError) : Bool :=
  match e.response with
  | some r => decide (400 ≤ r.status) && decide (r.status < 500)
  | none => false

/-- The error handler of `apiClient.interceptors.response.use`. Evaluation
order follows the JS source: `originalRequest._retry` is read first, so when
`error.config` is `undefined` the member access itself throws a `TypeError`
before the `!originalRequest` guard is reached. -/
def interceptorOnError (e : AxiosError) : HandlerResult :=
  match e.config with
  | none => HandlerResult.typeError
  | some cfg =>
    if cfg.retryFlag || !(jsTruthyCfg e.config) || is4xx e then
      HandlerResult.reject e
    else
      HandlerResult.retryRequest 1000 { cfg with retryFlag := true }

/-- Outcome of one network attempt: a success, an HTTP error response with
the given status, or a network-level failure with no response at all. -/
inductive Outcome where
  | success
  | httpFailure (status : Nat)
  | networkFailure
deriving DecidableEq, Repr

/-- Final result observed by the wrapper's caller. `fuelOut` is a sentinel
for running out of recursion fuel; it is proven unreachable. -/
inductive SendResult where
  | ok
  | err (e : AxiosError)
  | fuelOut
deriving DecidableEq, Repr

/-- Trace of one logical request through the wrapper: the caller-visible
result, how many network attempts were issued, and the list of delays (in
milliseconds) inserted before reissues. -/
structure SendTrace where
  result : SendResult
  attempts : Nat
  delays : List Nat
deriving DecidableEq, Repr

/-- Issue attempt number `i` with config `cfg` against the oracle: a failing
outcome produces the axios error object the interceptor will see. -/
def runAttempt (oracle : Nat → Outcome) (i : Nat) (cfg : RequestConfig) :
    Option AxiosError :=
  match oracle i with
  | Outcome.success => none
  | Outcome.httpFailure s => some { config := some cfg, response := some { status := s } }
  | Outcome.networkFailure => some { config := some cfg, response := none }

/-- The request/interceptor loop: each failed attempt is given to the
interceptor, whose `retryRequest` answer reissues the request
(`return apiClient(originalRequest)`). -/
def sendLoop (oracle : Nat → Outcome) :
    Nat → Nat → List Nat → RequestConfig → SendTrace
  | 0, n, ds, _ => { result := SendResult.fuelOut, attempts := n, delays := ds }
  | fuel + 1, n, ds, cfg =>
    match runAttempt oracle n cfg with
    | none => { result := SendResult.ok, attempts := n + 1, delays := ds }
    | some e =>
      match interceptorOnError e with
      | HandlerResult.typeError =>
        { result := SendResult.fuelOut, attempts := n + 1, delays := ds }
      | HandlerResult.reject e2 =>
        { result := SendResult.err e2, attempts := n + 1, delays := ds }
      | HandlerResult.retryRequest d cfg2 =>
        sendLoop oracle fuel (n + 1) (ds ++ [d]) cfg2

/-- One logical request through `apiClient`: first attempt carries a config
whose `_retry` flag is unset. Two units of fuel suffice because the
interceptor never retries a request whose `_retry` flag is set. -/
def send (oracle : Nat → Outcome) : SendTrace :=
  sendLoop oracle 2 0 [] { retryFlag := false }

/-- An outcome the interceptor retries: a server error with status at least
500, or a network-level failure (no response). -/
def retryEligible : Outcome → Bool
  | Outcome.success => false
  | Outcome.httpFailure s => decide (500 ≤ s)
  | Outcome.networkFailure => true

/-- Claim C1: for every request whose first attempt fails with a server error
status at least 500 or with a network-level failure, the wrapper reissues the
request exactly once after a fixed 1-second (1000 ms) delay, and never
reissues a second time: a successful retry yields the success, and a second
failure of either kind is propagated to the caller as a rejection carrying
the retried config. -/
theorem wrapper_retries_exactly_once_on_server_or_network_failure
    (oracle : Nat → Outcome) (h : retryEligible (oracle 0) = true) :
    (send oracle).attempts = 2 ∧
    (send oracle).delays = [1000] ∧
    (oracle 1 = Outcome.success → (send oracle).result = SendResult.ok) ∧
    (∀ s, oracle 1 = Outcome.httpFailure s →
      (send oracle).result =
        SendResult.err { config := some { retryFlag := true }, response := some { status := s } }) ∧
    (oracle 1 = Outcome.networkFailure →
      (send oracle).result =
        SendResult.err { config := some { retryFlag := true }, response := none }) := by
  have step1 : sendLoop oracle 2 0 [] { retryFlag := false } =
      sendLoop oracle 1 1 [1000] { retryFlag := true } := by
    cases h0 : oracle 0 with
    | success => simp [retryEligible, h0] at h
    | httpFailure s =>
      have hs : 500 ≤ s := by simpa [retryEligible, h0] using h
      have h4 : is4xx { config := some { retryFlag := false }, response := some { status := s } } = false := by
        simp [is4xx]
        omega
      simp [sendLoop, runAttempt, h0, interceptorOnError, h4, jsTruthyCfg]
    | networkFailure =>
      simp [sendLoop, runAttempt, h0, interceptorOnError, is4xx, jsTruthyCfg]
  have hsend : send oracle = sendLoop oracle 1 1 [1000] { retryFlag := true } := by
    rw [send, step1]
  refine ⟨?_, ?_, ?_, ?_, ?_⟩ <;> rw [hsend]
  · cases h1 : oracle 1 <;>
      simp [sendLoop, runAttempt, h1, interceptorOnError, jsTruthyCfg]
  · cases h1 : oracle 1 <;>
      simp [sendLoop, runAttempt, h1, interceptorOnError, jsTruthyCfg]
  · intro h1
    simp [sendLoop, runAttempt, h1]
  · intro s h1
    simp [sendLoop, runAttempt, h1, interceptorOnError, jsTruthyCfg]
  · intro h1
    simp [sendLoop, runAttempt, h1, interceptorOnError, jsTruthyCfg]

/-- Witness for C1: a request failing with HTTP 500 twice is attempted
exactly twice with a single 1000 ms delay and the second failure is
propagated. -/
theorem wrapper_retries_exactly_once_witness :
    (send (fun _ => Outcome.httpFailure 500)).attempts = 2 ∧
    (send (fun _ => Outcome.httpFailure 500)).result =
      SendResult.err { config := some { retryFlag := true }, response := some { status := 500 } } := by
  have h := wrapper_retries_exactly_once_on_server_or_network_failure
    (fun _ => Outcome.httpFailure 500) (by decide)
  exact ⟨h.1, h.2.2.2.1 500 rfl⟩

/-- Claim C2: a request whose first attempt fails with a client-error status
in [400, 500) is never reissued: the wrapper makes exactly one attempt, no
delay is inserted, and the original failure is propagated unchanged. -/
theorem wrapper_never_retries_4xx
    (oracle : Nat → Outcome) (s : Nat) (h0 : oracle 0 = Outcome.httpFailure s)
    (h4 : 400 ≤ s) (h5 : s < 500) :
    (send oracle).attempts = 1 ∧
    (send oracle).delays = [] ∧
    (send oracle).result =
      SendResult.err { config := some { retryFlag := false }, response := some { status := s } } := by
  have hx : is4xx { config := some { retryFlag := false }, response := some { status := s } } = true := by
    simp [is4xx]
    omega
  refine ⟨?_, ?_, ?_⟩ <;>
    simp [send, sendLoop, runAttempt, h0, interceptorOnError, hx, jsTruthyCfg]

/-- Witness for C2: a request failing with HTTP 404 is attempted once and the
404 error is propagated with no delay. -/
theorem wrapper_never_retries_4xx_witness :
    (send (fun _ => Outcome.httpFailure 404)).attempts = 1 ∧
    (send (fun _ => Outcome.httpFailure 404)).delays = [] ∧
    (send (fun _ => Outcome.httpFailure 404)).result =
      SendResult.err { config := some { retryFlag := false }, response := some { status := 404 } } :=
  wrapper_never_retries_4xx (fun _ => Outcome.httpFailure 404) 404 rfl
    (by decide) (by decide)

/-- Claim C9: in the interceptor's error handler, `originalRequest._retry` is
evaluated before the `!originalRequest` guard, so an error carrying no
`config` makes the handler itself throw a `TypeError` (it neither rejects
with the original error nor retries), and the `!originalRequest` test — only
ever evaluated once the member access has succeeded, i.e. when `config` is
present — is false there, making that branch unreachable. -/
theorem interceptor_typeerror_on_missing_config :
    (∀ e : AxiosError, e.config = none →
      interceptorOnError e = HandlerResult.typeError ∧
      interceptorOnError e ≠ HandlerResult.reject e) ∧
    (∀ e : AxiosError, ∀ cfg : RequestConfig, e.config = some cfg →
      (!(jsTruthyCfg e.config)) = false) := by
  constructor
  · intro e he
    rw [interceptorOnError, he]
    exact ⟨rfl, by simp⟩
  · intro e cfg he
    rw [he]
    rfl

/-- Witness for C9: the concrete error of a request that failed before being
sent (no `config`, no `response`) makes the handler throw a `TypeError`, and
a concrete error with a config present never reaches the `!originalRequest`
reject branch. -/
theorem interceptor_typeerror_on_missing_config_witness :
    interceptorOnError { config := none, response := none } = HandlerResult.typeError ∧
    (!(jsTruthyCfg (AxiosError.config { config := some { retryFlag := false }, response := none }))) = false := by
  constructor
  · exact (interceptor_typeerror_on_missing_config.1
      { config := none, response := none } rfl).1
  · exact interceptor_typeerror_on_missing_config.2
      { config := some { retryFlag := false }, response := none } { retryFlag := false } rfl

/-! ## Content sanitization (ChatContext.jsx, `sanitizeContent`)

  if (typeof content === 'string') {
    return content
      .replace(/<script\b[^<]*(?:(?!<\/script>)<[^<]*)*<\/script>/gi, '')
      .replace(/javascript:/gi, '')
      .replace(/on\w+=/gi, '');
  }
  return content;

Each `.replace(..., '')` with a `g`-flagged regex is a single left-to-right
pass deleting every non-overlapping leftmost match; matching is
case-insensitive (`i` flag), modelled by comparing `Char.toLower` images.
-/

/-- Case-insensitive character comparison, as performed by a JS regex with
the `i` flag on ASCII patterns. -/
def ciEq (a b : Char) : Bool :=
  a.toLower == b.toLower

/-- `ciStarts p s` holds when the pattern `p` matches the beginning of `s`
case-insensitively. -/
def ciStarts : List Char → List Char → Bool
  | [], _ => true
  | _ :: _, [] => false
  | p :: ps, c :: cs => ciEq p c && ciStarts ps cs

/-- One global-replace-by-empty pass for a fixed literal pattern, scanning
character by character: `skip > 0` means the scanner is still inside a
deleted match (that many characters of it remain to discard); at `skip = 0`
a leftmost case-insensitive occurrence starts a new deletion, exactly as
`.replace(/pat/gi, '')` deletes each leftmost match and resumes after it. -/
def replaceScanA (p : List Char) : Nat → List Char → List Char
  | _, [] => []
  | k + 1, _ :: cs => replaceScanA p k cs
  | 0, c :: cs =>
    if ciStarts p (c :: cs) then replaceScanA p (p.length - 1) cs
    else c :: replaceScanA p 0 cs

/-- The global-replace pass for pattern `p`, started outside any match. -/
def replaceScan (p : List Char) (s : List Char) : List Char :=
  replaceScanA p 0 s

/-- JS `\w` (no `u` flag): ASCII letters, digits and underscore. -/
def isWordChar (c : Char) : Bool :=
  c.isAlphanum || c == '_'

/-- Index of the first case-insensitive occurrence of `p` in `s`, if any. -/
def findCIIndex (p : List Char) : List Char → Option Nat
  | [] => none
  | c :: cs =>
    if ciStarts p (c :: cs) then some 0
    else (findCIIndex p cs).map (fun k => k + 1)

/-- The characters of `<script`, the opening literal of the script-block
pattern. -/
def scriptOpen : List Char := "<script".toList

/-- The characters of `</script>`, the closing literal. -/
def scriptClose : List Char := "</script>".toList

/-- Length of the match of `/<script\b[^<]*(?:(?!<\/script>)<[^<]*)*<\/script>/i`
anchored at the start of `s`, if it matches there: `<script`, then a word
boundary (the next character, if any, is not a word character), then — since
every intermediate `<` not opening `</script>` is consumed by the group —
everything up to and including the first case-insensitive `</script>`. -/
def scriptMatchLen (s : List Char) : Option Nat :=
  if ciStarts scriptOpen s then
    let rest := s.drop 7
    if (match rest with | [] => true | c :: _ => !(isWordChar c)) then
      match findCIIndex scriptClose rest with
      | some k => some (7 + k + 9)
      | none => none
    else none
  else none

/-- The first `.replace` pass, scanning character by character with a skip
counter for the remainder of a deleted match: at `skip = 0`, a script-block
match of length `n` at the current position deletes the current character
and the following `n - 1`. -/
def scriptScanA : Nat → List Char → List Char
  | _, [] => []
  | k + 1, _ :: cs => scriptScanA k cs
  | 0, c :: cs =>
    match scriptMatchLen (c :: cs) with
    | some n => scriptScanA (n - 1) cs
    | none => c :: scriptScanA 0 cs

/-- The script-block removal pass, started outside any match. -/
def scriptScan (s : List Char) : List Char :=
  scriptScanA 0 s

/-- Length of the match of `/on\w+=/i` anchored at the start of `s`, if it
matches there: `on`, a nonempty maximal run of word characters, then `=`
(the greedy `\w+` cannot backtrack onto `=` since `=` is not a word
character). -/
def onWordMatchLen : List Char → Option Nat
  | o :: n :: rest =>
    if ciEq 'o' o && ciEq 'n' n then
      let run := (rest.takeWhile isWordChar).length
      if 0 < run then
        match rest.drop run with
        | '=' :: _ => some (2 + run + 1)
        | _ => none
      else none
    else none
  | _ => none

/-- The third `.replace` pass, scanning character by character with a skip
counter for the remainder of a deleted match. -/
def onWordScanA : Nat → List Char → List Char
  | _, [] => []
  | k + 1, _ :: cs => onWordScanA k cs
  | 0, c :: cs =>
    match onWordMatchLen (c :: cs) with
    | some n => onWordScanA (n - 1) cs
    | none => c :: onWordScanA 0 cs

/-- The `on\w+=` removal pass, started outside any match. -/
def onWordScan (s : List Char) : List Char :=
  onWordScanA 0 s

/-- The characters of the literal `javascript:` pattern. -/
def jsProto : List Char := "javascript:".toList

/-- `sanitizeContent` on a string: the three replace passes in source
order. -/
def sanitizeString (s : List Char) : List Char :=
  onWordScan (replaceScan jsProto (scriptScan s))

/-- A JavaScript runtime value, as far as the store's fields are
concerned. -/
inductive JSValue where
  | str (s : List Char)
  | num (n : Int)
  | boolean (b : Bool)
  | null
  | undef
  | arr (elems : List JSValue)

/-- `typeof content === 'string'`. -/
def JSValue.isStr : JSValue → Bool
  | JSValue.str _ => true
  | _ => false

/-- `sanitizeContent`: strings get the three replace passes; every other
value is returned unchanged. -/
def sanitizeContent (content : JSValue) : JSValue :=
  match content with
  | JSValue.str s => JSValue.str (sanitizeString s)
  | other => other

/-- Case-sensitive substring prefix test (for stating "the output contains
the literal substring ..."). -/
def litStarts : List Char → List Char → Bool
  | [], _ => true
  | _ :: _, [] => false
  | p :: ps, c :: cs => p == c && litStarts ps cs

/-- Case-sensitive substring containment. -/
def containsStr (p : List Char) : List Char → Bool
  | [] => litStarts p []
  | c :: cs => litStarts p (c :: cs) || containsStr p cs

/-! ## Chat transcript store (ChatContext.jsx) and chat turn (AIChat.jsx,
chatService.js) -/

/-- A chat message as stored: `role` is `'user'` or `'assistant'`, `content`
is any JS value (sanitized only when it is a string). -/
structure ChatMessage where
  role : List Char
  content : JSValue

/-- A retrieved-context entry; the spread `{...context, ...}` in
`updateRetrievedContexts` keeps `created_at` and `similarity_score` as they
came from the backend. -/
structure CtxItem where
  title : JSValue
  content_snippet : JSValue
  created_at : JSValue
  similarity_score : JSValue

/-- The provider state: `messages`, `retrievedContexts`, `isLoading`. -/
structure ChatState where
  messages : List ChatMessage
  retrievedContexts : List CtxItem
  isLoading : Bool

/-- The seeded greeting text of `initialChatState`. -/
def greetingText : List Char :=
  "Hello! I\x27m your AI-powered journal assistant. You can ask me questions about your journal entries or have a conversation about them.".toList

/-- `'assistant'`. -/
def assistantRole : List Char := "assistant".toList

/-- `'user'`. -/
def userRole : List Char := "user".toList

/-- `initialChatState`: one seeded assistant greeting, no contexts, not
loading. -/
def initialChatState : ChatState :=
  { messages := [{ role := assistantRole, content := JSValue.str greetingText }],
    retrievedContexts := [],
    isLoading := false }

/-- The per-message body of the `map` inside `updateMessages`:
`{...message, content: sanitizeContent(message.content)}`. -/
def sanitizeMessage (m : ChatMessage) : ChatMessage :=
  { m with content := sanitizeContent m.content }

/-- `updateMessages`: sanitize every supplied message's content and replace
`messages` wholesale. -/
def updateMessages (newMessages : List ChatMessage) (st : ChatState) : ChatState :=
  { st with messages := newMessages.map sanitizeMessage }

/-- The per-context body of the `map` inside `updateRetrievedContexts`:
`{...context, content_snippet: sanitizeContent(...), title: sanitizeContent(...)}`. -/
def sanitizeCtxItem (c : CtxItem) : CtxItem :=
  { c with content_snippet := sanitizeContent c.content_snippet,
           title := sanitizeContent c.title }

/-- `updateRetrievedContexts`: sanitize every supplied context's title and
snippet and replace `retrievedContexts` wholesale. -/
def updateRetrievedContexts (contexts : List CtxItem) (st : ChatState) : ChatState :=
  { st with retrievedContexts := contexts.map sanitizeCtxItem }

/-- `setIsLoading`. -/
def setIsLoading (b : Bool) (st : ChatState) : ChatState :=
  { st with isLoading := b }

/-- `resetChat`: `setChatState(initialChatState)`. -/
def resetChat (_ : ChatState) : ChatState :=
  initialChatState

/-- Mounting the provider (`useState(initialChatState)`): the state the
store's initialization produces, applied after any prior state. -/
def initChat (_ : ChatState) : ChatState :=
  initialChatState

/-- Claim C5: `updateMessages` (the store's replaceMessages) replaces
`messages` wholesale with exactly the supplied sequence, each element's
`content` sanitized; in particular the resulting length is the length of the
supplied sequence regardless of how many messages the prior state held. -/
theorem replaceMessages_wholesale (st : ChatState) (newMessages : List ChatMessage) :
    (updateMessages newMessages st).messages = newMessages.map sanitizeMessage ∧
    (updateMessages newMessages st).messages.length = newMessages.length := by
  exact ⟨rfl, by simp [updateMessages]⟩

/-- Claim C7: `resetChat` restores exactly the initial state the provider's
initialization produces — one seeded assistant greeting message, empty
`retrievedContexts`, `isLoading = false` — and initializing after a reset
yields that same initial state again. -/
theorem reset_restores_initial_state (st : ChatState) :
    resetChat st = initialChatState ∧
    initChat (resetChat st) = initialChatState ∧
    initialChatState.messages = [{ role := assistantRole, content := JSValue.str greetingText }] ∧
    initialChatState.retrievedContexts = [] ∧
    initialChatState.isLoading = false :=
  ⟨rfl, rfl, rfl, rfl, rfl⟩

/-- The value `contextualChat` resolves with: an assistant role, the reply
text, and (on success) the optional `retrieved_contexts` array. -/
structure ServiceReply where
  role : List Char
  content : List Char
  contexts : Option (List CtxItem)

/-- The backend response body of `POST /chat/message`:
`{ response, retrieved_contexts? }`. -/
structure ChatResponseData where
  response : List Char
  retrieved_contexts : Option (List CtxItem)

/-- The fallback text `contextualChat` substitutes on error. -/
def fallbackText : List Char :=
  "I\x27m sorry, I encountered an error while processing your request. Please try again later.".toList

/-- `chatService.contextualChat`: on success, wrap the backend data; on any
propagated request failure, catch it and resolve with the fallback reply
(its `contexts` field is absent). -/
def contextualChat (result : Except AxiosError ChatResponseData) : ServiceReply :=
  match result with
  | Except.ok d =>
    { role := assistantRole, content := d.response, contexts := d.retrieved_contexts }
  | Except.error _ =>
    { role := assistantRole, content := fallbackText, contexts := none }

/-- The `if (response.contexts) updateRetrievedContexts(response.contexts)`
step of `handleSubmit`: a present array is truthy in JS even when empty, an
absent (`undefined`) field is falsy. -/
def applyResponseContexts (r : ServiceReply) (st : ChatState) : ChatState :=
  match r.contexts with
  | some cs => updateRetrievedContexts cs st
  | none => st

/-- JS `String.prototype.trim`. -/
def jsTrim (s : List Char) : List Char :=
  ((s.dropWhile Char.isWhitespace).reverse.dropWhile Char.isWhitespace).reverse

/-- `handleSubmit` of `AIChat.jsx` (context revision), for one chat turn
whose backend interaction resolves as `backend`: append the user message,
set loading, call `contextualChat`, append its reply, apply its contexts,
and finally clear the loading flag. -/
def handleSubmit (inputText : List Char) (st : ChatState)
    (backend : Except AxiosError ChatResponseData) : ChatState :=
  if jsTrim inputText = [] then st
  else
    let userMessage : ChatMessage := { role := userRole, content := JSValue.str inputText }
    let updatedMessages := st.messages ++ [userMessage]
    let st1 := setIsLoading true (updateMessages updatedMessages st)
    let response := contextualChat backend
    let st2 := updateMessages
      (updatedMessages ++ [{ role := assistantRole, content := JSValue.str response.content }]) st1
    let st3 := applyResponseContexts response st2
    setIsLoading false st3

/-- Claim C6: when the backend request of a chat turn fails (the wrapper's
retry policy exhausted, surfacing an error), the turn appends the assistant
fallback message as the last transcript entry and ends with `isLoading`
false. -/
theorem failed_turn_appends_fallback (st : ChatState) (inputText : List Char)
    (e : AxiosError) (h : jsTrim inputText ≠ []) :
    (handleSubmit inputText st (Except.error e)).isLoading = false ∧
    (handleSubmit inputText st (Except.error e)).messages.getLast? =
      some { role := assistantRole, content := JSValue.str fallbackText } := by
  have hsan : sanitizeString fallbackText = fallbackText := by decide
  rw [handleSubmit, if_neg h]
  constructor
  · rfl
  · show ((st.messages ++ [_] ++ [_]).map sanitizeMessage).getLast? = _
    simp [List.getLast?_concat, sanitizeMessage, contextualChat, sanitizeContent, hsan]

/-- Witness for C6: from the initial state, submitting "Hello" against a
request that failed with HTTP 500 after its retry leaves the fallback as the
last message and `isLoading` false. -/
theorem failed_turn_appends_fallback_witness :
    (handleSubmit "Hello".toList initialChatState
      (Except.error { config := some { retryFlag := true }, response := some { status := 500 } })).isLoading = false ∧
    (handleSubmit "Hello".toList initialChatState
      (Except.error { config := some { retryFlag := true }, response := some { status := 500 } })).messages.getLast? =
      some { role := assistantRole, content := JSValue.str fallbackText } :=
  failed_turn_appends_fallback initialChatState "Hello".toList
    { config := some { retryFlag := true }, response := some { status := 500 } }
    (by decide)

/-- Claim C8: `updateRetrievedContexts` replaces `retrievedContexts`
wholesale with the sanitized supplied array — never merging with the prior
state — and a turn whose reply carries `retrieved_contexts: []` (a present,
hence truthy, empty array) clears any previously displayed contexts. -/
theorem setRetrievedContexts_wholesale (st : ChatState) (contexts : List CtxItem)
    (role content : List Char) :
    (updateRetrievedContexts contexts st).retrievedContexts = contexts.map sanitizeCtxItem ∧
    (updateRetrievedContexts contexts st).retrievedContexts.length = contexts.length ∧
    (applyResponseContexts { role := role, content := content, contexts := some [] } st).retrievedContexts = [] := by
  refine ⟨rfl, by simp [updateRetrievedContexts], rfl⟩

/-- Claim C10: `sanitizeContent` returns every non-string value unchanged;
only string content is stripped, so non-string fields enter store state
without sanitization. -/
theorem sanitize_passthrough_non_string (v : JSValue) (h : v.isStr = false) :
    sanitizeContent v = v := by
  cases v with
  | str s => exact absurd h (by simp [JSValue.isStr])
  | num n => rfl
  | boolean b => rfl
  | null => rfl
  | undef => rfl
  | arr elems => rfl

/-- Witness for C10: the number 5 is not a string and passes through
`sanitizeContent` unchanged. -/
theorem sanitize_passthrough_non_string_witness :
    JSValue.isStr (JSValue.num 5) = false ∧ sanitizeContent (JSValue.num 5) = JSValue.num 5 :=
  ⟨rfl, sanitize_passthrough_non_string (JSValue.num 5) rfl⟩

/-! ## Facts about case-insensitive matching and the scan passes,
for settling the sanitizer claims C3 and C4. -/

/-- `Char.toLower` either fixes a character or shifts an ASCII uppercase
letter down by 32. -/
theorem char_toLower_shift (c : Char) :
    c.toLower = c ∨ ((65 ≤ c.toNat ∧ c.toNat ≤ 90) ∧ c.toLower.toNat = c.toNat + 32) := by
  unfold Char.toLower
  by_cases h : c.toNat ≥ 65 ∧ c.toNat ≤ 90
  · right
    refine ⟨⟨h.1, h.2⟩, ?_⟩
    have hv : (c.toNat + 32).isValidChar := Or.inl (by omega)
    simp only [if_pos h]
    rw [Char.ofNat, dif_pos hv]
    rfl
  · left
    simp only [if_neg h]

/-- A character `t` that is not an ASCII lowercase letter and is fixed by
`toLower` is case-insensitively equal only to itself. -/
theorem ciEq_eq_false_of_ne {t : Char} (ht1 : t.toLower = t)
    (ht2 : ¬(97 ≤ t.toNat ∧ t.toNat ≤ 122)) {c : Char} (hc : c ≠ t) :
    ciEq t c = false := by
  rw [ciEq, ht1]
  rw [beq_eq_false_iff_ne]
  intro he
  rcases char_toLower_shift c with h | ⟨⟨h1, h2⟩, h3⟩
  · exact hc ((he.trans h).symm)
  · apply ht2
    rw [he, h3]
    omega

/-- A character different from `<` never matches `<` case-insensitively. -/
theorem ciEq_lt_false {c : Char} (hc : c ≠ '<') : ciEq '<' c = false :=
  ciEq_eq_false_of_ne (by decide) (by decide) hc

/-- A character different from `:` never matches `:` case-insensitively. -/
theorem ciEq_colon_false {c : Char} (hc : c ≠ ':') : ciEq ':' c = false :=
  ciEq_eq_false_of_ne (by decide) (by decide) hc

/-- A pattern matching a prefix of `x` also matches that prefix of `x ++ y`. -/
theorem ciStarts_append_of {p x : List Char} (y : List Char)
    (h : ciStarts p x = true) : ciStarts p (x ++ y) = true := by
  induction p generalizing x with
  | nil => rfl
  | cons p0 ps ih =>
    cases x with
    | nil => exact absurd h (by simp [ciStarts])
    | cons c cs =>
      rw [ciStarts, Bool.and_eq_true] at h
      rw [List.cons_append, ciStarts, Bool.and_eq_true]
      exact ⟨h.1, ih h.2⟩

/-- Every pattern character of a successful case-insensitive prefix match is
matched by some character within the first `p.length` characters of the
text. -/
theorem ciStarts_mem_take {p t : List Char} (h : ciStarts p t = true) :
    ∀ x ∈ p, ∃ c ∈ t.take p.length, ciEq x c = true := by
  induction p generalizing t with
  | nil => intro x hx; exact absurd hx (List.not_mem_nil x)
  | cons p0 ps ih =>
    cases t with
    | nil => exact absurd h (by simp [ciStarts])
    | cons c cs =>
      rw [ciStarts, Bool.and_eq_true] at h
      intro x hx
      rcases List.mem_cons.mp hx with hx0 | hxs
      · exact ⟨c, by simp [List.take_cons], hx0 ▸ h.1⟩
      · rcases ih h.2 x hxs with ⟨d, hd1, hd2⟩
        exact ⟨d, by simp [List.take_cons]; exact Or.inr hd1, hd2⟩

/-- A character of the result of a replace pass is a character of its
input. -/
theorem replaceScanA_subset (p : List Char) (k : Nat) (s : List Char) :
    ∀ c ∈ replaceScanA p k s, c ∈ s := by
  induction s generalizing k with
  | nil => intro c hc; rw [replaceScanA] at hc; exact hc
  | cons a cs ih =>
    intro c hc
    match k with
    | k' + 1 =>
      rw [replaceScanA] at hc
      exact List.mem_cons_of_mem a (ih k' c hc)
    | 0 =>
      rw [replaceScanA] at hc
      by_cases hm : ciStarts p (a :: cs) = true
      · rw [if_pos hm] at hc
        exact List.mem_cons_of_mem a (ih _ c hc)
      · rw [if_neg hm] at hc
        rcases List.mem_cons.mp hc with h0 | hs
        · exact h0 ▸ List.mem_cons_self a cs
        · exact List.mem_cons_of_mem a (ih 0 c hs)

/-- A character of the result of the script pass is a character of its
input. -/
theorem scriptScanA_subset (k : Nat) (s : List Char) :
    ∀ c ∈ scriptScanA k s, c ∈ s := by
  induction s generalizing k with
  | nil => intro c hc; rw [scriptScanA] at hc; exact hc
  | cons a cs ih =>
    intro c hc
    match k with
    | k' + 1 =>
      rw [scriptScanA] at hc
      exact List.mem_cons_of_mem a (ih k' c hc)
    | 0 =>
      rw [scriptScanA] at hc
      cases hm : scriptMatchLen (a :: cs) with
      | some n =>
        rw [hm] at hc
        exact List.mem_cons_of_mem a (ih _ c hc)
      | none =>
        rw [hm] at hc
        rcases List.mem_cons.mp hc with h0 | hs
        · exact h0 ▸ List.mem_cons_self a cs
        · exact List.mem_cons_of_mem a (ih 0 c hs)

/-- A character of the result of the `on\w+=` pass is a character of its
input. -/
theorem onWordScanA_subset (k : Nat) (s : List Char) :
    ∀ c ∈ onWordScanA k s, c ∈ s := by
  induction s generalizing k with
  | nil => intro c hc; rw [onWordScanA] at hc; exact hc
  | cons a cs ih =>
    intro c hc
    match k with
    | k' + 1 =>
      rw [onWordScanA] at hc
      exact List.mem_cons_of_mem a (ih k' c hc)
    | 0 =>
      rw [onWordScanA] at hc
      cases hm : onWordMatchLen (a :: cs) with
      | some n =>
        rw [hm] at hc
        exact List.mem_cons_of_mem a (ih _ c hc)
      | none =>
        rw [hm] at hc
        rcases List.mem_cons.mp hc with h0 | hs
        · exact h0 ▸ List.mem_cons_self a cs
        · exact List.mem_cons_of_mem a (ih 0 c hs)

/-- Every character of a matched literal prefix is a character of the
text. -/
theorem litStarts_mem {p t : List Char} (h : litStarts p t = true) :
    ∀ x ∈ p, x ∈ t := by
  induction p generalizing t with
  | nil => intro x hx; exact absurd hx (List.not_mem_nil x)
  | cons p0 ps ih =>
    cases t with
    | nil => exact absurd h (by simp [litStarts])
    | cons c cs =>
      rw [litStarts, Bool.and_eq_true, beq_iff_eq] at h
      intro x hx
      rcases List.mem_cons.mp hx with hx0 | hxs
      · exact List.mem_cons.mpr (Or.inl (hx0.trans h.1))
      · exact List.mem_cons_of_mem c (ih h.2 x hxs)

/-- Every character of a contained literal substring is a character of the
containing string. -/
theorem containsStr_mem {p s : List Char} (h : containsStr p s = true) :
    ∀ x ∈ p, x ∈ s := by
  induction s with
  | nil =>
    intro x hx
    rw [containsStr] at h
    exact absurd hx (by cases p with
      | nil => exact List.not_mem_nil x
      | cons q qs => exact absurd h (by simp [litStarts]))
  | cons c cs ih =>
    rw [containsStr, Bool.or_eq_true] at h
    intro x hx
    rcases h with h | h
    · exact litStarts_mem h x hx
    · exact List.mem_cons_of_mem c (ih h x hx)

/-- A pattern whose head fails its case-insensitive comparison does not
match. -/
theorem ciStarts_cons_false {p0 c : Char} (ps cs : List Char)
    (h : ciEq p0 c = false) : ciStarts (p0 :: ps) (c :: cs) = false := by
  rw [ciStarts, h, Bool.false_and]

/-- Skipping exactly the length of a leading block lands the scanner just
after it. -/
theorem replaceScanA_consume (p x t : List Char) :
    replaceScanA p x.length (x ++ t) = replaceScanA p 0 t := by
  induction x with
  | nil => rfl
  | cons a xs ih =>
    rw [List.length_cons, List.cons_append, replaceScanA]
    exact ih

/-- Skipping exactly the length of a leading block lands the script scanner
just after it. -/
theorem scriptScanA_consume (x t : List Char) :
    scriptScanA x.length (x ++ t) = scriptScanA 0 t := by
  induction x with
  | nil => rfl
  | cons a xs ih =>
    rw [List.length_cons, List.cons_append, scriptScanA]
    exact ih

/-- No script-block match can start at a character that is not
case-insensitively `<`. -/
theorem scriptMatchLen_none_of_head {c : Char} (cs : List Char)
    (h : ciEq '<' c = false) : scriptMatchLen (c :: cs) = none := by
  have hz : ciStarts scriptOpen (c :: cs) = false := by
    rw [show scriptOpen = '<' :: "script".toList from rfl]
    exact ciStarts_cons_false _ _ h
  rw [scriptMatchLen, if_neg (by simp [hz])]

/-- The script pass leaves a string with no character matching `<`
case-insensitively unchanged. -/
theorem scriptScanA_id (s : List Char) (h : ∀ c ∈ s, ciEq '<' c = false) :
    scriptScanA 0 s = s := by
  induction s with
  | nil => rfl
  | cons a cs ih =>
    rw [scriptScanA, scriptMatchLen_none_of_head cs (h a (List.mem_cons_self a cs))]
    rw [ih (fun c hc => h c (List.mem_cons_of_mem a hc))]

/-- Scanning for a pattern across a prefix none of whose characters matches
the pattern head shifts the found index by the prefix length. -/
theorem findCIIndex_skip (p0 : Char) (ps pre t : List Char)
    (hpre : ∀ c ∈ pre, ciEq p0 c = false) :
    findCIIndex (p0 :: ps) (pre ++ t) =
      (findCIIndex (p0 :: ps) t).map (fun k => k + pre.length) := by
  induction pre with
  | nil =>
    cases hf : findCIIndex (p0 :: ps) t <;> simp [hf]
  | cons a pre' ih =>
    rw [List.cons_append, findCIIndex,
      if_neg (by simp [ciStarts_cons_false _ _ (hpre a (List.mem_cons_self a pre'))])]
    rw [ih (fun c hc => hpre c (List.mem_cons_of_mem a hc))]
    cases hf : findCIIndex (p0 :: ps) t with
    | none => simp [hf]
    | some k => simp [hf]; omega

/-- The script-block attack payload named by claim C3. -/
def scriptPayload : List Char := "<script>alert(1)</script>".toList

/-- The literal `<script>`. -/
def scriptLit : List Char := "<script>".toList

/-- The script pass on `A ++ <script>alert(1)</script> ++ B` with `<`-free
`A` and `B` deletes exactly the payload block. -/
theorem scriptScanA_strip_block (A B : List Char)
    (hA : ∀ c ∈ A, ciEq '<' c = false) (hB : ∀ c ∈ B, ciEq '<' c = false) :
    scriptScanA 0 (A ++ scriptPayload ++ B) = A ++ B := by
  induction A with
  | nil =>
    rw [List.nil_append, List.nil_append]
    have hm : scriptMatchLen (scriptPayload ++ B) = some 25 := by
      rw [scriptMatchLen]
      have hs : ciStarts scriptOpen (scriptPayload ++ B) = true :=
        ciStarts_append_of B (by decide)
      rw [if_pos hs]
      have hd : (scriptPayload ++ B).drop 7 =
          '>' :: ("alert(1)".toList ++ ("</script>".toList ++ B)) := by
        rw [List.drop_append_of_le_length (by decide)]
        rw [show scriptPayload.drop 7 = '>' :: "alert(1)</script>".toList from by decide]
        rw [show ("alert(1)</script>".toList : List Char) =
          "alert(1)".toList ++ "</script>".toList from by decide]
        rfl
      rw [hd]
      dsimp only
      rw [if_pos (by decide)]
      have hshift : findCIIndex scriptClose
          ('>' :: ("alert(1)".toList ++ ("</script>".toList ++ B))) = some 9 := by
        rw [show ('>' :: ("alert(1)".toList ++ ("</script>".toList ++ B)) : List Char) =
          ">alert(1)".toList ++ ("</script>".toList ++ B) from rfl]
        rw [show scriptClose = '<' :: "/script>".toList from rfl]
        rw [findCIIndex_skip '<' _ _ _ (by decide)]
        have hcl : ciStarts ('<' :: "/script>".toList) "</script>".toList = true := by decide
        have hcond : ciStarts ('<' :: "/script>".toList)
            ('<' :: ("/script>".toList ++ B)) = true := ciStarts_append_of B hcl
        rw [show ("</script>".toList ++ B : List Char) =
          '<' :: ("/script>".toList ++ B) from rfl]
        rw [findCIIndex, if_pos hcond]
        rfl
      rw [hshift]
    rw [show (scriptPayload ++ B : List Char) =
      '<' :: ("script>alert(1)</script>".toList ++ B) from rfl] at hm ⊢
    rw [scriptScanA, hm]
    show scriptScanA (("script>alert(1)</script>".toList : List Char)).length
      ("script>alert(1)</script>".toList ++ B) = B
    rw [scriptScanA_consume]
    exact scriptScanA_id B hB
  | cons a A' ih =>
    rw [List.cons_append, List.cons_append, scriptScanA,
      scriptMatchLen_none_of_head _ (hA a (List.mem_cons_self a A'))]
    rw [ih (fun c hc => hA c (List.mem_cons_of_mem a hc))]
    rfl

/-- Counterexample to claim C3 as stated: the input
`<scr<script>alert(1)</script>ipt>` contains `<script>alert(1)</script>`,
yet its sanitized output still contains the literal `<script>` — the
single-pass replace deletes the inner block and splices the surrounding
fragments `<scr` and `ipt>` into a fresh `<script>`. -/
theorem sanitize_script_claim_counterexample :
    containsStr scriptPayload "<scr<script>alert(1)</script>ipt>".toList = true ∧
    containsStr scriptLit (sanitizeString "<scr<script>alert(1)</script>ipt>".toList) = true := by
  decide

/-- Claim C3 as amended: for every input of the form
`A ++ <script>alert(1)</script> ++ B` in which the surrounding `A` and `B`
contain no `<` character (so that deleting the block cannot splice a new
`<script>` across the deleted span), the sanitized output does not contain
the literal substring `<script>`. -/
theorem sanitize_strips_script_in_lt_free_context (A B : List Char)
    (hA : ∀ c ∈ A, c ≠ '<') (hB : ∀ c ∈ B, c ≠ '<') :
    containsStr scriptLit (sanitizeString (A ++ scriptPayload ++ B)) = false := by
  have hA2 : ∀ c ∈ A, ciEq '<' c = false := fun c hc => ciEq_lt_false (hA c hc)
  have hB2 : ∀ c ∈ B, ciEq '<' c = false := fun c hc => ciEq_lt_false (hB c hc)
  have hscan : scriptScan (A ++ scriptPayload ++ B) = A ++ B :=
    scriptScanA_strip_block A B hA2 hB2
  rw [sanitizeString, hscan]
  cases hcontain : containsStr scriptLit (onWordScan (replaceScan jsProto (A ++ B))) with
  | false => rfl
  | true =>
    exfalso
    have hlt : '<' ∈ onWordScan (replaceScan jsProto (A ++ B)) :=
      containsStr_mem hcontain '<' (by decide)
    have hlt2 : '<' ∈ replaceScan jsProto (A ++ B) :=
      onWordScanA_subset 0 _ '<' hlt
    have hlt3 : '<' ∈ A ++ B :=
      replaceScanA_subset jsProto 0 _ '<' hlt2
    rcases List.mem_append.mp hlt3 with h | h
    · exact hA '<' h rfl
    · exact hB '<' h rfl

/-- Witness for amended C3: with `A = "ab"` and `B = "cd"` the sanitized
output of `ab<script>alert(1)</script>cd` contains no `<script>`. -/
theorem sanitize_strips_script_in_lt_free_context_witness :
    containsStr scriptLit (sanitizeString ("ab".toList ++ scriptPayload ++ "cd".toList)) = false :=
  sanitize_strips_script_in_lt_free_context "ab".toList "cd".toList
    (by decide) (by decide)

/-- The `javascript:` pass leaves a string with no character matching `:`
case-insensitively unchanged (every occurrence of the pattern would need its
final `:`). -/
theorem replaceScanA_id_of_colon_free (C : List Char)
    (h : ∀ c ∈ C, ciEq ':' c = false) :
    replaceScanA jsProto 0 C = C := by
  induction C with
  | nil => rfl
  | cons a cs ih =>
    have hns : ciStarts jsProto (a :: cs) = false := by
      cases hcs : ciStarts jsProto (a :: cs) with
      | false => rfl
      | true =>
        exfalso
        obtain ⟨d, hd1, hd2⟩ := ciStarts_mem_take hcs ':' (by decide)
        exact absurd hd2 (by simp [h d (List.take_subset _ _ hd1)])
    rw [replaceScanA, if_neg (by simp [hns])]
    rw [ih (fun c hc => h c (List.mem_cons_of_mem a hc))]

/-- No `javascript:` match can start inside the `A` part of
`A ++ javascript: ++ C` when `A` has no character matching `:`: the match
window of eleven characters would end before the pattern's own colon, in a
region (`A` and the first ten characters `javascript`) with no colon-like
character. -/
theorem ciStarts_jsProto_false_in_A (A C : List Char) (i : Nat) (hi : i < A.length)
    (hA : ∀ c ∈ A, ciEq ':' c = false) :
    ciStarts jsProto (List.drop i (A ++ jsProto ++ C)) = false := by
  cases hcs : ciStarts jsProto (List.drop i (A ++ jsProto ++ C)) with
  | false => rfl
  | true =>
    exfalso
    obtain ⟨d, hd1, hd2⟩ := ciStarts_mem_take hcs ':' (by decide)
    rw [List.append_assoc, List.drop_append_of_le_length (Nat.le_of_lt hi)] at hd1
    have hL : 1 ≤ (A.drop i).length := by
      rw [List.length_drop]
      omega
    have hjlen : jsProto.length = 11 := by decide
    by_cases h11 : jsProto.length ≤ (A.drop i).length
    · rw [List.take_append_of_le_length h11] at hd1
      have hdA : d ∈ A := List.drop_subset i A (List.take_subset _ _ hd1)
      exact absurd hd2 (by simp [hA d hdA])
    · have hsum : jsProto.length = (A.drop i).length + (jsProto.length - (A.drop i).length) := by
        omega
      rw [hsum, List.take_append] at hd1
      rcases List.mem_append.mp hd1 with hd | hd
      · have hdA : d ∈ A := List.drop_subset i A hd
        exact absurd hd2 (by simp [hA d hdA])
      · rw [List.take_append_of_le_length (by omega)] at hd
        have hm10 : jsProto.length - (A.drop i).length ≤ 10 := by omega
        have htt : jsProto.take (jsProto.length - (A.drop i).length) =
            (jsProto.take 10).take (jsProto.length - (A.drop i).length) := by
          rw [List.take_take, Nat.min_eq_left hm10]
        rw [htt] at hd
        have hd10 : d ∈ jsProto.take 10 := List.take_subset _ _ hd
        have hfin : ∀ c ∈ jsProto.take 10, ciEq ':' c = false := by decide
        exact absurd hd2 (by simp [hfin d hd10])

/-- When no `javascript:` match starts inside `A`, the pass on
`A ++ javascript: ++ C` deletes that literal block and proceeds on `C`. -/
theorem replaceScanA_ctx (A C : List Char)
    (hA : ∀ i, i < A.length → ciStarts jsProto (List.drop i (A ++ jsProto ++ C)) = false) :
    replaceScanA jsProto 0 (A ++ jsProto ++ C) = A ++ replaceScanA jsProto 0 C := by
  induction A with
  | nil =>
    rw [List.nil_append, List.nil_append]
    have hj : ciStarts jsProto ('j' :: ("avascript:".toList ++ C)) = true :=
      ciStarts_append_of C (by decide)
    rw [show (jsProto ++ C : List Char) = 'j' :: ("avascript:".toList ++ C) from rfl]
    rw [replaceScanA, if_pos hj]
    show replaceScanA jsProto (("avascript:".toList : List Char)).length
      ("avascript:".toList ++ C) = replaceScanA jsProto 0 C
    exact replaceScanA_consume jsProto _ C
  | cons a A' ih =>
    have h0 := hA 0 (by simp)
    rw [List.drop_zero, List.cons_append, List.cons_append] at h0
    rw [List.cons_append, List.cons_append]
    rw [replaceScanA, if_neg (by simp only [h0]; decide)]
    have hA2 : ∀ i, i < A'.length →
        ciStarts jsProto (List.drop i (A' ++ jsProto ++ C)) = false := by
      intro i hi
      have hstep := hA (i + 1) (by simp; omega)
      rw [List.cons_append, List.cons_append, List.drop_succ_cons] at hstep
      exact hstep
    rw [ih hA2]
    rfl

/-- The `javascript:` attack payload named by claim C4. -/
def jsPayload : List Char := "javascript:alert(1)".toList

/-- Counterexample to claim C4 as stated: the input
`javascrjavascript:ipt: javascript:alert(1)` contains
`javascript:alert(1)`, yet its sanitized output
(`javascript: alert(1)`) still contains `javascript:` — the single
left-to-right pass deletes both original occurrences and thereby splices
`javascr` and `ipt:` into a fresh `javascript:`. -/
theorem sanitize_jsproto_claim_counterexample :
    containsStr jsPayload "javascrjavascript:ipt: javascript:alert(1)".toList = true ∧
    containsStr jsProto
      (sanitizeString "javascrjavascript:ipt: javascript:alert(1)".toList) = true := by
  decide

/-- Claim C4 as amended: for every input of the form
`A ++ javascript:alert(1) ++ B` in which the surrounding `A` and `B` contain
no `<` and no `:` characters (so the occurrence is unique and deleting it
cannot splice a new one), the sanitized output does not contain the
substring `javascript:`. -/
theorem sanitize_strips_jsproto_in_clean_context (A B : List Char)
    (hAlt : ∀ c ∈ A, c ≠ '<') (hBlt : ∀ c ∈ B, c ≠ '<')
    (hAc : ∀ c ∈ A, c ≠ ':') (hBc : ∀ c ∈ B, c ≠ ':') :
    containsStr jsProto (sanitizeString (A ++ jsPayload ++ B)) = false := by
  have hltfree : ∀ c ∈ A ++ jsPayload ++ B, ciEq '<' c = false := by
    intro c hc
    rcases List.mem_append.mp hc with hc | hc
    · rcases List.mem_append.mp hc with hc | hc
      · exact ciEq_lt_false (hAlt c hc)
      · exact (by decide : ∀ c ∈ (jsPayload : List Char), ciEq '<' c = false) c hc
    · exact ciEq_lt_false (hBlt c hc)
  have hscript : scriptScan (A ++ jsPayload ++ B) = A ++ jsPayload ++ B :=
    scriptScanA_id _ hltfree
  have hsplit : A ++ jsPayload ++ B = A ++ jsProto ++ ("alert(1)".toList ++ B) := by
    rw [show (jsPayload : List Char) = jsProto ++ "alert(1)".toList from by decide]
    simp [List.append_assoc]
  have hAc2 : ∀ c ∈ A, ciEq ':' c = false := fun c hc => ciEq_colon_false (hAc c hc)
  have hCc2 : ∀ c ∈ "alert(1)".toList ++ B, ciEq ':' c = false := by
    intro c hc
    rcases List.mem_append.mp hc with hc | hc
    · exact (by decide : ∀ c ∈ ("alert(1)".toList : List Char), ciEq ':' c = false) c hc
    · exact ciEq_colon_false (hBc c hc)
  have hpos : ∀ i, i < A.length →
      ciStarts jsProto (List.drop i (A ++ jsProto ++ ("alert(1)".toList ++ B))) = false :=
    fun i hi => ciStarts_jsProto_false_in_A A _ i hi hAc2
  have hrepl : replaceScanA jsProto 0 (A ++ jsProto ++ ("alert(1)".toList ++ B)) =
      A ++ ("alert(1)".toList ++ B) := by
    rw [replaceScanA_ctx A _ hpos, replaceScanA_id_of_colon_free _ hCc2]
  rw [sanitizeString, hscript, hsplit]
  rw [show replaceScan jsProto (A ++ jsProto ++ ("alert(1)".toList ++ B)) =
    A ++ ("alert(1)".toList ++ B) from hrepl]
  cases hcontain : containsStr jsProto (onWordScan (A ++ ("alert(1)".toList ++ B))) with
  | false => rfl
  | true =>
    exfalso
    have hcol : ':' ∈ onWordScan (A ++ ("alert(1)".toList ++ B)) :=
      containsStr_mem hcontain ':' (by decide)
    have hcol2 : ':' ∈ A ++ ("alert(1)".toList ++ B) :=
      onWordScanA_subset 0 _ ':' hcol
    rcases List.mem_append.mp hcol2 with h | h
    · exact hAc ':' h rfl
    · rcases List.mem_append.mp h with h | h
      · exact absurd h (by decide)
      · exact hBc ':' h rfl

/-- Witness for amended C4: with `A = "ab"` and `B = "cd"` the sanitized
output of `abjavascript:alert(1)cd` contains no `javascript:`. -/
theorem sanitize_strips_jsproto_in_clean_context_witness :
    containsStr jsProto (sanitizeString ("ab".toList ++ jsPayload ++ "cd".toList)) = false :=
  sanitize_strips_jsproto_in_clean_context "ab".toList "cd".toList
    (by decide) (by decide) (by decide) (by decide)
